import Mathlib

/-!
Shallow embedding of the Crawditor crawl-to-audit pipeline.

The source is a single Node.js script.  Pure string manipulation
(`sanatizeURL`) is embedded directly.  The effectful parts
(`save`, `saveLastCrawl`, `auditAll`, `makeAuditsIndex`, the crawler
callbacks) are embedded as functions from their inputs to the sequence of
observable events they cause (filesystem operations, audit invocations,
console signals), following Node's single-threaded event-loop semantics:
code inside a function body, including a promise `.then` fulfillment
handler, runs synchronously to completion; `fs.writeFile` completion
callbacks and promise resolutions are delivered only on later event-loop
turns, strictly after the synchronous code that scheduled them has
returned.
-/

/-! ## Path sanitizer (`sanatizeURL`) -/

/-- Per-character effect of the three chained `String.prototype.replace`
calls in `sanatizeURL`: `/`, `?` and `:` each become `.`; every other
character is unchanged.  Each replace is one character for one character,
so the three chained global replaces amount to mapping this function. -/
def sanatizeChar (c : Char) : Char :=
  if c = '/' ∨ c = '?' ∨ c = ':' then '.' else c

/-- List-of-characters form of `sanatizeURL`: map `sanatizeChar`, then, if
the last character is `.` (in JS, `url[url.length-1] !== "."` is the
guard, and for the empty string `url[-1]` is `undefined`, which is not
`"."`), drop exactly one trailing character (`url.slice(0, url.length-1)`). -/
def sanatizeList (l : List Char) : List Char :=
  if (l.map sanatizeChar).getLast? = some '.' then (l.map sanatizeChar).dropLast
  else l.map sanatizeChar

/-- The source's `sanatizeURL`, as a function on strings. -/
def sanatizeURL (url : String) : String :=
  String.mk (sanatizeList url.data)

example : sanatizeURL "https://example.com/a" = "https...example.com.a" := by decide

example : sanatizeURL "https://example.com/" = "https...example.com" := by decide

example : sanatizeURL "https://example.com//" = "https...example.com." := by decide

lemma sanatizeChar_idem (c : Char) : sanatizeChar (sanatizeChar c) = sanatizeChar c := by
  unfold sanatizeChar
  by_cases h : c = '/' ∨ c = '?' ∨ c = ':'
  · rw [if_pos h, if_neg (by decide)]
  · rw [if_neg h, if_neg h]

lemma sanatizeChar_not_forbidden (c : Char) :
    sanatizeChar c ≠ '/' ∧ sanatizeChar c ≠ '?' ∧ sanatizeChar c ≠ ':' := by
  unfold sanatizeChar
  by_cases h : c = '/' ∨ c = '?' ∨ c = ':'
  · rw [if_pos h]
    exact ⟨by decide, by decide, by decide⟩
  · rw [if_neg h]
    push_neg at h
    exact ⟨h.1, h.2.1, h.2.2⟩

lemma mem_sanatizeList {c : Char} {l : List Char}
    (h : c ∈ sanatizeList l) : c ∈ l.map sanatizeChar := by
  unfold sanatizeList at h
  split at h
  · exact (List.dropLast_sublist _).subset h
  · exact h

lemma map_map_sanatizeChar (m : List Char) :
    (m.map sanatizeChar).map sanatizeChar = m.map sanatizeChar := by
  induction m with
  | nil => rfl
  | cons a t ih => simp [ih, sanatizeChar_idem a]

lemma map_sanatizeList (l : List Char) :
    (sanatizeList l).map sanatizeChar = sanatizeList l := by
  unfold sanatizeList
  split
  · rw [List.map_dropLast, map_map_sanatizeChar]
  · exact map_map_sanatizeChar l

lemma sanatizeList_of_fixed {m : List Char} (hm : m.map sanatizeChar = m)
    (hnd : m.getLast? ≠ some '.') : sanatizeList m = m := by
  unfold sanatizeList
  rw [hm, if_neg hnd]

/-- C4 (amended): `sanatizeURL` is pure, its result never contains `/`,
`?` or `:`; and provided the character-replaced input does not end in two
consecutive `.`, the result does not end in `.` and `sanatizeURL` is
idempotent at that input.  (The unamended claim fails: only one trailing
`.` is dropped, see `sanatizeURL_not_idempotent`.) -/
theorem sanatizeURL_sound (x : String) :
    (∀ c ∈ (sanatizeURL x).data, c ≠ '/' ∧ c ≠ '?' ∧ c ≠ ':') ∧
    (¬((x.data.map sanatizeChar).getLast? = some '.' ∧
        (x.data.map sanatizeChar).dropLast.getLast? = some '.') →
      (sanatizeURL x).data.getLast? ≠ some '.' ∧
      sanatizeURL (sanatizeURL x) = sanatizeURL x) := by
  constructor
  · intro c hc
    have hmem : c ∈ x.data.map sanatizeChar := mem_sanatizeList hc
    obtain ⟨a, _, ha⟩ := List.mem_map.mp hmem
    rw [← ha]
    exact sanatizeChar_not_forbidden a
  · intro h
    have hnd : (sanatizeList x.data).getLast? ≠ some '.' := by
      unfold sanatizeList
      split
      next hc =>
        intro hcontra
        exact h ⟨hc, hcontra⟩
      next hc => exact hc
    refine ⟨hnd, ?_⟩
    show String.mk (sanatizeList (sanatizeList x.data)) = String.mk (sanatizeList x.data)
    rw [sanatizeList_of_fixed (map_sanatizeList x.data) hnd]

/-- C4 counterexample: on `"https://example.com//"` the sanitized result
is `"https...example.com."`, which ends in `.`, and re-sanitizing changes
it — refuting both the never-ends-in-`.` and the idempotence parts of the
claim. -/
theorem sanatizeURL_not_idempotent :
    sanatizeURL (sanatizeURL "https://example.com//") ≠ sanatizeURL "https://example.com//" ∧
    (sanatizeURL "https://example.com//").data.getLast? = some '.' := by
  decide

/-- Witness for `sanatizeURL_sound` at the concrete input
`"https://example.com/a"`. -/
theorem sanatizeURL_sound_witness :
    ¬((("https://example.com/a").data.map sanatizeChar).getLast? = some '.' ∧
        (("https://example.com/a").data.map sanatizeChar).dropLast.getLast? = some '.') ∧
    sanatizeURL (sanatizeURL "https://example.com/a") = sanatizeURL "https://example.com/a" :=
  ⟨by decide, ((sanatizeURL_sound "https://example.com/a").2 (by decide)).2⟩

/-! ## Observable events of the effectful pipeline -/

/-- Paths of the two per-URL report files written by the `.then` handler
in `auditAll` (through `save`, which prepends `./output/`). -/
def auditJsonPath (url : String) : String :=
  "./output/" ++ (sanatizeURL url ++ "/auditData.json")

/-- Rendered-report path, see `auditJsonPath`. -/
def auditHtmlPath (url : String) : String :=
  "./output/" ++ (sanatizeURL url ++ "/index.html")

/-- Observable events of the pipeline: synchronous directory creation
(`fs.mkdirSync`), initiation of an asynchronous file write
(`fs.writeFile` called), completion of such a write (its callback fired),
start of an audit capability invocation (the `audit(urls[index])` call,
which synchronously launches the browser), the `"Auditing complete."`
completion signal, and the `makeAuditsIndex()` invocation. -/
inductive Ev where
  | mkdirDone (path : String)
  | writeInit (path : String)
  | writeDone (path : String)
  | auditStart (index : Nat) (url : String)
  | auditComplete
  | makeIndex
deriving DecidableEq, Repr

/-- Events caused from the moment the audit of queue position `idx`
(url `u`) resolves, with `rest` the urls after position `idx` and
`ok j` telling whether the audit of position `j` succeeds (its promise
fulfills) or fails (rejects).  Mirrors the `.then` fulfillment handler of
`auditAll`: on success it synchronously calls `save` twice (initiating the
two report writes) and then `auditAll(urls, index + 1)`, which either
starts the next audit or logs `"Auditing complete."`; the `fs.writeFile`
completion callbacks run on later event-loop turns, strictly after that
synchronous code (their exact interleaving with later audit activity is
immaterial to every property proved below, and they are placed after it).
On rejection there is no `.catch` handler, so nothing further happens in
the chain. -/
def auditResolved (ok : Nat → Bool) (u : String) (idx : Nat) : List String → List Ev
  | [] =>
    if ok idx then
      [Ev.writeInit (auditJsonPath u), Ev.writeInit (auditHtmlPath u),
       Ev.auditComplete,
       Ev.writeDone (auditJsonPath u), Ev.writeDone (auditHtmlPath u)]
    else []
  | v :: rest =>
    if ok idx then
      Ev.writeInit (auditJsonPath u) :: Ev.writeInit (auditHtmlPath u) ::
      Ev.auditStart (idx + 1) v ::
      (auditResolved ok v (idx + 1) rest ++
        [Ev.writeDone (auditJsonPath u), Ev.writeDone (auditHtmlPath u)])
    else []

/-- Event trace of `auditAll(urls, 0)`: with a non-empty queue it starts
the audit of `urls[0]` and everything else unfolds from that audit's
resolution; with an empty queue it logs `"Auditing complete."`
immediately. -/
def auditAllEvents (ok : Nat → Bool) : List String → List Ev
  | [] => [Ev.auditComplete]
  | u :: rest => Ev.auditStart 0 u :: auditResolved ok u 0 rest

/-- Boolean recognizer for audit invocations in a trace. -/
def isAuditStart : Ev → Bool
  | .auditStart _ _ => true
  | _ => false

example :
    auditAllEvents (fun _ => true) ["a", "b"] =
      [Ev.auditStart 0 "a",
       Ev.writeInit (auditJsonPath "a"), Ev.writeInit (auditHtmlPath "a"),
       Ev.auditStart 1 "b",
       Ev.writeInit (auditJsonPath "b"), Ev.writeInit (auditHtmlPath "b"),
       Ev.auditComplete,
       Ev.writeDone (auditJsonPath "b"), Ev.writeDone (auditHtmlPath "b"),
       Ev.writeDone (auditJsonPath "a"), Ev.writeDone (auditHtmlPath "a")] := by
  decide

/-- C1: FALSE of the code.  With two discovered urls whose first audit
fails (the promise rejects), `auditAll(urls, 0)` performs exactly one
audit invocation — not two — and never emits the `"Auditing complete."`
completion signal: the rejection has no handler, so the recursive chain
stalls. -/
theorem auditAll_stalls_on_failure :
    (["https://a.com", "https://a.com/b"] : List String).length = 2 ∧
    (auditAllEvents (fun _ => false) ["https://a.com", "https://a.com/b"]).countP isAuditStart = 1 ∧
    Ev.auditComplete ∉ auditAllEvents (fun _ => false) ["https://a.com", "https://a.com/b"] := by
  decide

/-- Directory-creation events of the `urls.discovered.forEach` loop at the
top of `saveLastCrawl`: for each discovered url, `fs.existsSync` guards an
`fs.mkdirSync("./output/" + sanatizeURL(url))`; `existing` is the set of
per-url directory names already present under `./output` (empty right
after `clearOutput`), so a directory is created once even when two urls
sanitize to the same key. -/
def mkdirEvents : List String → List String → List Ev
  | [], _ => []
  | url :: rest, existing =>
    if sanatizeURL url ∈ existing then mkdirEvents rest existing
    else
      Ev.mkdirDone ("./output/" ++ sanatizeURL url) ::
        mkdirEvents rest (sanatizeURL url :: existing)

/-- Event trace of `saveLastCrawl(urls)`, which runs, synchronously: the
`forEach` directory pre-creation loop, `save("lastCrawl.json", urls)`
(initiating that write; `./output` already exists here, the `mkdirSync`
calls above require it), then `auditAll(urls.discovered, 0)` — which only
starts the first audit (or logs `"Auditing complete."` when the list is
empty) because audit resolution is a deferred promise continuation — and
then `makeAuditsIndex()`.  Only afterwards does the event loop deliver
the deferred audit resolutions and write completions. -/
def saveLastCrawlEvents (ok : Nat → Bool) (discovered : List String) : List Ev :=
  mkdirEvents discovered [] ++
  Ev.writeInit "./output/lastCrawl.json" ::
  (match discovered with
   | [] => [Ev.auditComplete, Ev.makeIndex, Ev.writeDone "./output/lastCrawl.json"]
   | u :: rest =>
     Ev.auditStart 0 u :: Ev.makeIndex ::
     (auditResolved ok u 0 rest ++ [Ev.writeDone "./output/lastCrawl.json"]))

/-- C2: FALSE of the code.  With one discovered url whose audit succeeds,
`makeAuditsIndex()` is invoked exactly once but runs while that audit is
still pending: the trace places `makeIndex` after the audit has started
and strictly before the audit's persistence and the `"Auditing
complete."` signal, because `saveLastCrawl` calls `makeAuditsIndex()`
synchronously right after `auditAll` has merely initiated the first
audit. -/
theorem makeIndex_runs_before_audits_finish :
    (saveLastCrawlEvents (fun _ => true) ["https://example.com/a"]).count Ev.makeIndex = 1 ∧
    Ev.auditComplete ∈ saveLastCrawlEvents (fun _ => true) ["https://example.com/a"] ∧
    (saveLastCrawlEvents (fun _ => true) ["https://example.com/a"]).indexOf
        (Ev.auditStart 0 "https://example.com/a") <
      (saveLastCrawlEvents (fun _ => true) ["https://example.com/a"]).indexOf Ev.makeIndex ∧
    (saveLastCrawlEvents (fun _ => true) ["https://example.com/a"]).indexOf Ev.makeIndex <
      (saveLastCrawlEvents (fun _ => true) ["https://example.com/a"]).indexOf Ev.auditComplete := by
  decide

/-! ## Crawler callbacks -/

/-- Outcome of a crawler callback: either control returns to the event
loop (`proceed`) or `process.exit(code)` is reached. -/
inductive HandlerOutcome where
  | proceed
  | exitWith (code : Nat)
deriving DecidableEq, Repr

/-- Result of running a crawler callback: console output, process
outcome, and the pipeline events it causes. -/
structure HandlerResult where
  logs : List String
  outcome : HandlerOutcome
  events : List Ev
deriving DecidableEq, Repr

/-- The source's `onError` callback `crawlerError`: it logs
`"Crawling error, exiting."` and calls `process.exit(1)`.  Its `data`
argument (the failed url and status) is unused. -/
def crawlerError : HandlerResult :=
  ⟨["Crawling error, exiting."], .exitWith 1, []⟩

/-- The source's `onFinished` callback `crawlerFinished`: when both url
arrays are empty it logs a hint and returns; otherwise it hands off to
`saveLastCrawl` (the `timeCreated` timestamp added there does not affect
any event path). -/
def crawlerFinished (ok : Nat → Bool) (crawled discovered : List String) : HandlerResult :=
  if crawled.length = 0 ∧ discovered.length = 0 then
    ⟨["\nPlease check your URL exists and has links in it."], .proceed, []⟩
  else
    ⟨[], .proceed, saveLastCrawlEvents ok discovered⟩

/-- C5 counterexample: a single fetch failure is not recovered — the
`onError` handler terminates the process instead of proceeding. -/
theorem crawlerError_not_recovered : crawlerError.outcome ≠ HandlerOutcome.proceed := by
  decide

/-- C5 (amended): a single URL fetch failure during the crawl is fatal:
`crawlerError` logs `"Crawling error, exiting."` and exits the process
with code 1; the traversal does not continue (no further pipeline
events). -/
theorem crawlerError_exits :
    crawlerError.outcome = HandlerOutcome.exitWith 1 ∧
    "Crawling error, exiting." ∈ crawlerError.logs ∧
    crawlerError.events = [] := by
  decide

/-- C8: when the crawl finishes with both `crawled` and `discovered`
empty, `crawlerFinished` reports the condition with a message, does not
exit the process, and causes no pipeline events at all — in particular
neither an audit invocation nor `makeAuditsIndex`. -/
theorem crawlerFinished_empty_reported (ok : Nat → Bool) :
    (crawlerFinished ok [] []).outcome = HandlerOutcome.proceed ∧
    "\nPlease check your URL exists and has links in it." ∈ (crawlerFinished ok [] []).logs ∧
    (crawlerFinished ok [] []).events = [] := by
  unfold crawlerFinished
  rw [if_pos ⟨rfl, rfl⟩]
  exact ⟨rfl, List.mem_singleton.mpr rfl, rfl⟩

/-- Witness for `crawlerFinished_empty_reported` at a concrete success
oracle. -/
theorem crawlerFinished_empty_reported_witness :
    (crawlerFinished (fun _ => true) [] []).outcome = HandlerOutcome.proceed ∧
    (crawlerFinished (fun _ => true) [] []).events = [] :=
  ⟨(crawlerFinished_empty_reported (fun _ => true)).1,
   (crawlerFinished_empty_reported (fun _ => true)).2.2⟩

/-- C3 counterexample: with two urls and both audits succeeding, the
audit of `urls[1]` starts (trace position 3) strictly before the write of
`urls[0]`'s `auditData.json` completes (trace position 9): `save` only
initiates `fs.writeFile` and `auditAll(urls, index + 1)` runs without
awaiting the write callbacks. -/
theorem audit_starts_before_writes_complete :
    Ev.auditStart 1 "b" ∈ auditAllEvents (fun _ => true) ["a", "b"] ∧
    Ev.writeDone (auditJsonPath "a") ∈ auditAllEvents (fun _ => true) ["a", "b"] ∧
    (auditAllEvents (fun _ => true) ["a", "b"]).indexOf (Ev.auditStart 1 "b") <
      (auditAllEvents (fun _ => true) ["a", "b"]).indexOf (Ev.writeDone (auditJsonPath "a")) := by
  decide

lemma auditResolved_block (ok : Nat → Bool) :
    ∀ (k : Nat) (rest : List String) (u : String) (idx : Nat),
      k < rest.length → (∀ j, j ≤ k → ok (idx + j) = true) →
      ∃ l₁ l₂,
        auditResolved ok u idx rest =
          l₁ ++ Ev.writeInit (auditJsonPath ((u :: rest).getD k "")) ::
                Ev.writeInit (auditHtmlPath ((u :: rest).getD k "")) ::
                Ev.auditStart (idx + k + 1) (rest.getD k "") :: l₂ ∧
        Ev.writeDone (auditJsonPath ((u :: rest).getD k "")) ∈ l₂ := by
  intro k
  induction k with
  | zero =>
    intro rest u idx hk hok
    match rest, hk with
    | v :: rest', _ =>
      have hok0 : ok idx = true := by simpa using hok 0 (Nat.le_refl 0)
      refine ⟨[], auditResolved ok v (idx + 1) rest' ++
        [Ev.writeDone (auditJsonPath u), Ev.writeDone (auditHtmlPath u)], ?_, ?_⟩
      · simp [auditResolved, hok0]
      · simp
  | succ k ih =>
    intro rest u idx hk hok
    match rest, hk with
    | v :: rest', hk =>
      have hok0 : ok idx = true := by simpa using hok 0 (Nat.zero_le _)
      have hk' : k < rest'.length := by
        simpa using Nat.lt_of_succ_lt_succ hk
      have hok' : ∀ j, j ≤ k → ok (idx + 1 + j) = true := by
        intro j hj
        have h := hok (j + 1) (Nat.succ_le_succ hj)
        have harith : idx + (j + 1) = idx + 1 + j := by omega
        rwa [harith] at h
      obtain ⟨m₁, m₂, heq, hmem⟩ := ih rest' v (idx + 1) hk' hok'
      refine ⟨Ev.writeInit (auditJsonPath u) :: Ev.writeInit (auditHtmlPath u) ::
          Ev.auditStart (idx + 1) v :: m₁,
        m₂ ++ [Ev.writeDone (auditJsonPath u), Ev.writeDone (auditHtmlPath u)], ?_, ?_⟩
      · have harith : idx + (k + 1) + 1 = idx + 1 + k + 1 := by omega
        simp only [auditResolved, hok0, if_true, List.getD_cons_succ, harith, heq]
        simp [List.append_assoc]
      · simp only [List.getD_cons_succ]
        exact List.mem_append_left _ hmem

/-- C3 (amended): the audit queue serializes audits against write
*initiation*, not write *completion*: whenever audits `0..i` succeed and
position `i + 1` exists, the trace of `auditAll(urls, 0)` contains the
contiguous block «initiate the two report writes for `urls[i]`, then
start the audit of `urls[i+1]`» — so the next audit starts only after
audit `i`'s persistence step has begun, but the completion of those
writes (`writeDone`) comes strictly after the next audit has started. -/
theorem auditAll_next_audit_after_save_initiation (ok : Nat → Bool) (urls : List String)
    (i : Nat) (hi : i + 1 < urls.length) (hok : ∀ j, j ≤ i → ok j = true) :
    ∃ l₁ l₂,
      auditAllEvents ok urls =
        l₁ ++ Ev.writeInit (auditJsonPath (urls.getD i "")) ::
              Ev.writeInit (auditHtmlPath (urls.getD i "")) ::
              Ev.auditStart (i + 1) (urls.getD (i + 1) "") :: l₂ ∧
      Ev.writeDone (auditJsonPath (urls.getD i "")) ∈ l₂ := by
  match urls, hi with
  | u :: rest, hi =>
    have hk : i < rest.length := by
      simpa using Nat.lt_of_succ_lt_succ hi
    have hok' : ∀ j, j ≤ i → ok (0 + j) = true := by
      intro j hj
      simpa using hok j hj
    obtain ⟨m₁, m₂, heq, hmem⟩ := auditResolved_block ok i rest u 0 hk hok'
    refine ⟨Ev.auditStart 0 u :: m₁, m₂, ?_, ?_⟩
    · have harith : 0 + i + 1 = i + 1 := by omega
      rw [harith] at heq
      simp only [auditAllEvents, List.getD_cons_succ, heq, List.cons_append]
    · simpa only [List.getD_cons_succ] using hmem

/-- Witness for `auditAll_next_audit_after_save_initiation` at the
concrete queue `["a", "b"]` with every audit succeeding, at `i = 0`. -/
theorem auditAll_next_audit_after_save_initiation_witness :
    ∃ l₁ l₂,
      auditAllEvents (fun _ => true) ["a", "b"] =
        l₁ ++ Ev.writeInit (auditJsonPath ((["a", "b"] : List String).getD 0 "")) ::
              Ev.writeInit (auditHtmlPath ((["a", "b"] : List String).getD 0 "")) ::
              Ev.auditStart 1 ((["a", "b"] : List String).getD 1 "") :: l₂ ∧
      Ev.writeDone (auditJsonPath ((["a", "b"] : List String).getD 0 "")) ∈ l₂ :=
  auditAll_next_audit_after_save_initiation (fun _ => true) ["a", "b"] 0
    (by decide) (fun _ _ => rfl)

/-! ## CLI argument parsing (`depth` / `threads`) -/

/-- JS regex word character class `\w` = `[A-Za-z0-9_]`. -/
def isWordChar (c : Char) : Bool := c.isAlpha || c.isDigit || c == '_'

/-- Does `s.match(/\b(10|[1-9])\b/g)` find a match: some position carries
either `10` or a digit `1`–`9`, with a word boundary on each side.  The
matched text starts and ends with a digit (a word character), so `\b`
holds exactly when the adjacent character is absent or not a word
character; `l.getD j ' '` yields the non-word `' '` out of range, giving
the end-of-string boundary for free. -/
def matchesDepthArg (s : String) : Bool :=
  (List.range s.data.length).any fun i =>
    (i == 0 || !isWordChar (s.data.getD (i - 1) ' ')) &&
    ((s.data.getD i ' ' == '1' && s.data.getD (i + 1) ' ' == '0' &&
        !isWordChar (s.data.getD (i + 2) ' ')) ||
     (decide ('1' ≤ s.data.getD i ' ') && decide (s.data.getD i ' ' ≤ '9') &&
        !isWordChar (s.data.getD (i + 1) ' ')))

/-- Does `s.match(/[1-5]/g)` find a match: the string contains some
character between `1` and `5`. -/
def matchesThreadsArg (s : String) : Bool :=
  s.data.any fun c => decide ('1' ≤ c) && decide (c ≤ '5')

/-- A JS value as it can end up in the `depth` / `threads` variables:
either the numeric default or the raw argument string passed through. -/
inductive JsVal where
  | num (n : Nat)
  | str (s : String)
deriving DecidableEq, Repr

/-- The source's depth parsing: `depth` starts as the number `1` and is
reassigned to the raw string `process.argv[3]` when that argument is
truthy (present and non-empty) and its regex test succeeds. -/
def depthArg (argv3 : Option String) : JsVal :=
  match argv3 with
  | none => .num 1
  | some s => if s ≠ "" ∧ matchesDepthArg s = true then .str s else .num 1

/-- The source's threads parsing, defaulting to the number `5`. -/
def threadsArg (argv4 : Option String) : JsVal :=
  match argv4 with
  | none => .num 5
  | some s => if s ≠ "" ∧ matchesThreadsArg s = true then .str s else .num 5

example : depthArg (some "3") = JsVal.str "3" := by decide
example : depthArg (some "10") = JsVal.str "10" := by decide
example : depthArg (some "11") = JsVal.num 1 := by decide
example : depthArg (some "0") = JsVal.num 1 := by decide
example : threadsArg (some "0") = JsVal.num 5 := by decide
example : threadsArg (some "6") = JsVal.num 5 := by decide

/-- C6: FALSE of the code.  Out-of-range arguments are not always
replaced by the default: `/[1-5]/g` tests mere containment of a digit
`1`–`5`, so the concurrency argument `"10"` (numeric value 10, outside
`[1,5]`) matches via its `1` and is passed through as the raw string;
likewise the depth argument `"0.5"` passes `/\b(10|[1-9])\b/g` via its
word-bounded `5` even though 0.5 lies outside `[1,10]`.  The defaults do
apply when the argument is absent. -/
theorem args_out_of_range_passed_through :
    threadsArg (some "10") = JsVal.str "10" ∧
    ("10" : String).data = [Nat.digitChar 1, Nat.digitChar 0] ∧ ¬((10 : Nat) ≤ 5) ∧
    depthArg (some "0.5") = JsVal.str "0.5" ∧
    threadsArg none = JsVal.num 5 ∧
    depthArg none = JsVal.num 1 := by
  decide

/-! ## Index builder (`readDirs` / `makeAuditsIndex`) -/

/-- An entry of the store root `./output` as the filesystem reports it:
its name and whether it is a directory. -/
structure DirEntry where
  name : String
  isDir : Bool
deriving DecidableEq, Repr

/-- The source's `readDirs`: `fs.readdirSync("./output")` returns the
names of ALL immediate entries of the store root — directories and
regular files alike (despite the function's own doc comment saying
"directories"). -/
def readDirs (listing : List DirEntry) : List String :=
  listing.map DirEntry.name

/-- The `<li>` link `makeAuditsIndex` emits for one listed name. -/
def auditLink (dir : String) : String :=
  "<li><a href=\"/" ++ dir ++ "/\">" ++ dir ++ "</a></li>"

/-- The links of the generated index, one per name returned by
`readDirs`, in listing order. -/
def auditIndexLinks (listing : List DirEntry) : List String :=
  (readDirs listing).map auditLink

/-- The `dirs` accumulator of `makeAuditsIndex`: the links concatenated
by the `forEach` loop. -/
def auditIndexDirs (listing : List DirEntry) : String :=
  (readDirs listing).foldl (fun acc dir => acc ++ auditLink dir) ""

/-- The full `index` template string written to `./output/index.html` by
`makeAuditsIndex`. -/
def makeAuditsIndexHtml (listing : List DirEntry) : String :=
  "\n  <html>\n    <head>\n    </head>\n    <body>\n      <ul>\n        " ++
  auditIndexDirs listing ++
  "\n      </ul>\n    </body>\n  </html>\n  "

/-- C7: FALSE of the code.  With the store root listing a per-url
subdirectory and the regular file `lastCrawl.json`, the generated index
content carries a link for the non-directory entry too: `readDirs` does
not filter `fs.readdirSync`'s result by entry type. -/
theorem makeAuditsIndex_links_files_too :
    auditIndexDirs [⟨"https...example.com.a", true⟩, ⟨"lastCrawl.json", false⟩] =
      auditLink "https...example.com.a" ++ auditLink "lastCrawl.json" ∧
    auditLink "lastCrawl.json" ∈
      auditIndexLinks [⟨"https...example.com.a", true⟩, ⟨"lastCrawl.json", false⟩] ∧
    (∀ e ∈ ([⟨"https...example.com.a", true⟩, ⟨"lastCrawl.json", false⟩] : List DirEntry),
      e.name = "lastCrawl.json" → e.isDir = false) := by
  decide

/-! ## Output store (`save`) -/

/-- A JS value in a position where `save` can receive it as `data`. An
`obj` carries the string `JSON.stringify(·, "", 2)` produces for it. -/
inductive JsData where
  | obj (stringified : String)
  | str (s : String)
  | num (n : Int)
  | boolean (b : Bool)
  | nullv
  | undef
deriving DecidableEq, Repr

/-- JS truthiness of a `JsData` value (`NaN`, which is also falsy, has no
counterpart here; floats are not modelled). -/
def JsData.truthy : JsData → Bool
  | .obj _ => true
  | .str s => s ≠ ""
  | .num n => n ≠ 0
  | .boolean b => b
  | .nullv => false
  | .undef => false

/-- What a call to `save` does: the value it throws (if any), the
filesystem operations it performs, and its console error output. -/
structure SaveResult where
  thrown : Option String
  fsOps : List Ev
  logs : List String
deriving DecidableEq, Repr

/-- The source's `save(filename, data, callback)`: throw
`"No data or no filename"` when `data` or `filename` is falsy; otherwise
stringify object data; if the (possibly stringified) data is a string,
ensure `./output` exists (`fs.mkdirSync("output")` when absent —
`outputDirExists` says whether it is) and initiate the asynchronous write
of `./output/<filename>`; for any other type, log
`"Unable to save data."` and write nothing. -/
def save (filename : String) (data : JsData) (outputDirExists : Bool) : SaveResult :=
  if data.truthy = false ∨ filename = "" then
    ⟨some "No data or no filename", [], []⟩
  else
    match (match data with | .obj s => JsData.str s | x => x) with
    | .str _ => ⟨none, (if outputDirExists then [] else [Ev.mkdirDone "output"]) ++
                  [Ev.writeInit ("./output/" ++ filename)], []⟩
    | _ => ⟨none, [], ["Unable to save data."]⟩

/-- C9: whenever `filename` or `data` is falsy — the empty string
included — `save` throws exactly the string `"No data or no filename"`
and performs no filesystem operation at all. -/
theorem save_throws_on_falsy (filename : String) (data : JsData) (ex : Bool)
    (h : data.truthy = false ∨ filename = "") :
    (save filename data ex).thrown = some "No data or no filename" ∧
    (save filename data ex).fsOps = [] := by
  unfold save
  rw [if_pos h]
  exact ⟨rfl, rfl⟩

/-- Witness for `save_throws_on_falsy`: the empty string is a falsy
`data` payload, and the call writes nothing. -/
theorem save_throws_on_falsy_witness :
    (JsData.str "").truthy = false ∧
    (save "auditData.json" (JsData.str "") true).thrown = some "No data or no filename" ∧
    (save "auditData.json" (JsData.str "") true).fsOps = [] :=
  ⟨by decide,
   (save_throws_on_falsy "auditData.json" (JsData.str "") true (Or.inl (by decide))).1,
   (save_throws_on_falsy "auditData.json" (JsData.str "") true (Or.inl (by decide))).2⟩

/-! ## Every write targets the output tree (C10) -/

/-- The single synchronous write of `makeAuditsIndex`:
`fs.writeFileSync("./output/index.html", index)`. -/
def makeAuditsIndexWrites : List Ev :=
  [Ev.writeInit "./output/index.html"]

/-- Is a path the output root itself (`mkdirSync("output")`) or textually
under `./output/`? -/
def underOutput (p : String) : Bool :=
  p == "output" || p.data.take 9 == ("./output/" : String).data

/-- Does a filesystem event (directory creation or write) target the
output tree?  Non-filesystem events hold vacuously. -/
def evUnderOutput : Ev → Bool
  | .mkdirDone p => underOutput p
  | .writeInit p => underOutput p
  | .writeDone p => underOutput p
  | _ => true

lemma underOutput_append (x : String) : underOutput ("./output/" ++ x) = true := by
  unfold underOutput
  have h : ("./output/" ++ x).data.take 9 = ("./output/" : String).data := by
    rw [String.data_append]
    have h9 : ("./output/" : String).data.length = 9 := by decide
    rw [← h9, List.take_left]
  rw [h]
  simp

lemma auditResolved_all_under (ok : Nat → Bool) :
    ∀ (rest : List String) (u : String) (idx : Nat),
      (auditResolved ok u idx rest).all evUnderOutput = true := by
  intro rest
  induction rest with
  | nil =>
    intro u idx
    by_cases h : ok idx = true <;>
      simp [auditResolved, h, evUnderOutput, auditJsonPath, auditHtmlPath, underOutput_append]
  | cons v rest' ih =>
    intro u idx
    by_cases h : ok idx = true <;>
      simp [auditResolved, h, evUnderOutput, auditJsonPath, auditHtmlPath, underOutput_append,
        List.all_append, ih v (idx + 1)]

lemma mkdirEvents_all_under :
    ∀ (urls existing : List String), (mkdirEvents urls existing).all evUnderOutput = true := by
  intro urls
  induction urls with
  | nil => intro existing; rfl
  | cons url rest ih =>
    intro existing
    by_cases h : sanatizeURL url ∈ existing <;>
      simp [mkdirEvents, h, evUnderOutput, underOutput_append, ih]

lemma saveLastCrawlEvents_all_under (ok : Nat → Bool) (discovered : List String) :
    (saveLastCrawlEvents ok discovered).all evUnderOutput = true := by
  have hlast : underOutput "./output/lastCrawl.json" = true := by decide
  cases discovered with
  | nil =>
    simp [saveLastCrawlEvents, List.all_append, mkdirEvents_all_under, evUnderOutput, hlast]
  | cons u rest =>
    simp [saveLastCrawlEvents, List.all_append, mkdirEvents_all_under, evUnderOutput, hlast,
      auditResolved_all_under]

lemma save_all_under (filename : String) (data : JsData) (ex : Bool) :
    (save filename data ex).fsOps.all evUnderOutput = true := by
  have houtput : underOutput "output" = true := by decide
  unfold save
  split
  · rfl
  · cases data <;> cases ex <;>
      simp [evUnderOutput, underOutput_append, houtput]

/-- C10: every filesystem write or directory creation the program
performs targets the output tree: whatever its arguments, `save` only
ever creates `./output` and writes `./output/<filename>`; the whole
`saveLastCrawl` hand-off (per-url `mkdirSync` calls, `lastCrawl.json`,
and every audit-report write down the queue) stays under `./output/`;
and `makeAuditsIndex` writes only `./output/index.html`. -/
theorem pipeline_writes_under_output :
    (∀ (filename : String) (data : JsData) (ex : Bool),
        (save filename data ex).fsOps.all evUnderOutput = true) ∧
    (∀ (ok : Nat → Bool) (discovered : List String),
        (saveLastCrawlEvents ok discovered).all evUnderOutput = true) ∧
    makeAuditsIndexWrites.all evUnderOutput = true :=
  ⟨save_all_under, saveLastCrawlEvents_all_under, by decide⟩

/-- Witness for `pipeline_writes_under_output` at concrete arguments. -/
theorem pipeline_writes_under_output_witness :
    (save "lastCrawl.json" (JsData.obj "x") false).fsOps.all evUnderOutput = true ∧
    (saveLastCrawlEvents (fun _ => true) ["https://example.com/a"]).all evUnderOutput = true :=
  ⟨pipeline_writes_under_output.1 "lastCrawl.json" (JsData.obj "x") false,
   pipeline_writes_under_output.2.1 (fun _ => true) ["https://example.com/a"]⟩
